import Mathlib

/-!
Verification of the IntLib interval-arithmetic library (src/IntLib.py,
src/GenFuncs.py) against its natural-language specification.

Modelling conventions (shallow embedding):

* IEEE-754 double values are modelled by the inductive type `F` below:
  `nan`, the two infinities, and finite values taken as exact rationals.
  Signed zero is collapsed to the single rational `0` (all predicates the
  library applies to bounds — `==`, `<`, `<=` — are blind to the sign of
  zero, so this collapse does not change any branch decision).
* The directed-rounding calls (`round_down`, `round_up`, `round_nearest`)
  only switch the hardware rounding mode; in the exact-rational model
  every elementary operation is exact, so the mode switches are identity
  and are dropped.  The `+ 1 - 1` re-rounding trick used in `_mul` and
  `_div_simple` is likewise identity on every `F` value (exact on finite
  values, fixed point on `nan` and the infinities) and is dropped.
* IEEE comparison semantics are kept: every comparison with `nan` is
  false, `==` on `nan` is false.
* Python's builtin `min`/`max` (as compiled by numba) keep the current
  value and replace it only when a later argument compares `<` (resp. `>`)
  to it; `pymin`/`pymax` below reproduce that fold, including its
  behaviour on `nan`.
* Transcendental scalar kernels (`np.sqrt`, `np.log`, `np.sin`, `np.cos`)
  and the start-up π enclosure are not rational-valued; the interval
  functions that use them are parametrised over them (one parameter per
  rounding direction actually used by the source), so theorems about the
  surrounding branch logic hold for every choice of kernel.
* Python exceptions (`NotImplementedError`, `AssertionError`,
  `AttributeError`) are modelled with `Except PyErr`.
-/

/-- Model of an IEEE-754 double: NaN, the infinities, or an exact finite
value (a rational). -/
inductive F where
  | nan : F
  | ninf : F
  | pinf : F
  | fin : ℚ → F
deriving DecidableEq, Repr

namespace F

/-- `numpy.isnan`. -/
def isnan : F → Bool
  | nan => true
  | _ => false

/-- IEEE `<` : any comparison with NaN is false. -/
def Flt : F → F → Bool
  | nan, _ => false
  | _, nan => false
  | ninf, ninf => false
  | ninf, _ => true
  | _, ninf => false
  | pinf, _ => false
  | _, pinf => true
  | fin x, fin y => decide (x < y)

/-- IEEE `<=` : any comparison with NaN is false. -/
def Fle : F → F → Bool
  | nan, _ => false
  | _, nan => false
  | ninf, _ => true
  | _, ninf => false
  | _, pinf => true
  | pinf, _ => false
  | fin x, fin y => decide (x ≤ y)

/-- IEEE `>`. -/
def Fgt (a b : F) : Bool := Flt b a

/-- IEEE `==` : false whenever either side is NaN. -/
def Fbeq : F → F → Bool
  | nan, _ => false
  | _, nan => false
  | ninf, ninf => true
  | pinf, pinf => true
  | fin x, fin y => decide (x = y)
  | _, _ => false

/-- IEEE negation. -/
def Fneg : F → F
  | nan => nan
  | ninf => pinf
  | pinf => ninf
  | fin q => fin (-q)

/-- IEEE addition (exact on finite values): NaN propagates, opposite
infinities give NaN. -/
def Fadd : F → F → F
  | nan, _ => nan
  | _, nan => nan
  | pinf, ninf => nan
  | ninf, pinf => nan
  | pinf, _ => pinf
  | _, pinf => pinf
  | ninf, _ => ninf
  | _, ninf => ninf
  | fin p, fin q => fin (p + q)

/-- IEEE subtraction, `a - b = a + (-b)` exactly. -/
def Fsub (a b : F) : F := Fadd a (Fneg b)

/-- IEEE multiplication (exact on finite values): NaN propagates,
`0 × ∞ = NaN`. -/
def Fmul : F → F → F
  | nan, _ => nan
  | _, nan => nan
  | pinf, pinf => pinf
  | pinf, ninf => ninf
  | ninf, pinf => ninf
  | ninf, ninf => pinf
  | pinf, fin q => if q = 0 then nan else if q < 0 then ninf else pinf
  | fin q, pinf => if q = 0 then nan else if q < 0 then ninf else pinf
  | ninf, fin q => if q = 0 then nan else if q < 0 then pinf else ninf
  | fin q, ninf => if q = 0 then nan else if q < 0 then pinf else ninf
  | fin p, fin q => fin (p * q)

/-- IEEE division (exact on finite values): NaN propagates, `∞/∞ = NaN`,
`x/±∞ = 0` for finite `x`, division of a nonzero value by (positive)
zero gives the signed infinity, `0/0 = NaN`. -/
def Fdiv : F → F → F
  | nan, _ => nan
  | _, nan => nan
  | pinf, pinf => nan
  | pinf, ninf => nan
  | ninf, pinf => nan
  | ninf, ninf => nan
  | pinf, fin q => if q < 0 then ninf else pinf
  | ninf, fin q => if q < 0 then pinf else ninf
  | fin _, pinf => fin 0
  | fin _, ninf => fin 0
  | fin p, fin q =>
    if q = 0 then (if p = 0 then nan else if p < 0 then ninf else pinf)
    else fin (p / q)

/-- IEEE absolute value. -/
def Fabs : F → F
  | nan => nan
  | ninf => pinf
  | pinf => pinf
  | fin q => fin |q|

/-- `x ** k` for a nonnegative integer exponent `k` (exact on finite
values; `x ** 0 = 1`). -/
def FpowN (x : F) (k : ℕ) : F :=
  if k = 0 then fin 1 else
  match x with
  | nan => nan
  | pinf => pinf
  | ninf => if k % 2 = 0 then pinf else ninf
  | fin q => fin (q ^ k)

end F

open F

/-- Python's builtin two-argument `min` as numba compiles it for floats:
keep the first argument unless the second compares `<` to it. -/
def pymin (a b : F) : F := if Flt b a then b else a

/-- Python's builtin two-argument `max`: keep the first argument unless
the second compares `>` to it. -/
def pymax (a b : F) : F := if Fgt b a then b else a

/-- `min(a, b, c, d)` — the left fold Python performs. -/
def min4 (a b c d : F) : F := pymin (pymin (pymin a b) c) d

/-- `max(a, b, c, d)` — the left fold Python performs. -/
def max4 (a b c d : F) : F := pymax (pymax (pymax a b) c) d

/-- Python exceptions raised by the library. -/
inductive PyErr where
  | notImplementedError : String → PyErr
  | assertionError : String → PyErr
  | attributeError : String → PyErr
deriving DecidableEq, Repr

/-! ## The numba-jitted interval kernels of src/IntLib.py -/

/-- `_is_valid`: valid if both bounds NaN or both not NaN. -/
def _is_valid (_x x_ : F) : Bool := isnan _x == isnan x_

/-- `_is_extended`: `_x > x_` means the complement-style interval
`[-∞, x_] ∪ [_x, +∞]`. -/
def _is_extended (_x x_ : F) : Bool := Fgt _x x_

/-- `_isempty`: the empty set is `[nan, nan]`. -/
def _isempty (_x x_ : F) : Bool := isnan _x && isnan x_

/-- `_has_zero`: `0 ∈ [_x, x_]`, with the empty / extended / normal
three-way split of the source. -/
def _has_zero (_x x_ : F) : Bool :=
  if _isempty _x x_ then false
  else if _is_extended _x x_ then Fle (fin 0) x_ || Fle _x (fin 0)
  else Fle _x (fin 0) && Fle (fin 0) x_

/-- Fuelled version of the recursive `_contains`.  The source recursion
replaces one extended operand by an arm bounded with `∓∞` at each call,
so its depth is at most 2; fuel 3 is never exhausted. -/
def containsF : ℕ → F → F → F → F → Bool
  | 0, _, _, _, _ => false
  | Nat.succ k, _s, s_, _o, o_ =>
    if _isempty _o o_ then true
    else if _isempty _s s_ then false
    else if _is_extended _s s_ && _is_extended _o o_ then
      containsF k _s s_ ninf o_ && containsF k _s s_ _o pinf
    else if _is_extended _s s_ then
      containsF k ninf s_ _o o_ || containsF k _s pinf _o o_
    else if _is_extended _o o_ then
      containsF k _s s_ ninf o_ || containsF k _s s_ _o pinf
    else Fle _s _o && Fle o_ s_

/-- `_contains`: `[_o, o_] ⊆ [_s, s_]`. -/
def _contains (_s s_ _o o_ : F) : Bool := containsF 3 _s s_ _o o_

/-- `_add`. -/
def _add (_a a_ _b b_ : F) : F × F :=
  if _isempty _a a_ || _isempty _b b_ then (nan, nan)
  else if _is_extended _a a_ && _is_extended _b b_ then (ninf, pinf)
  else (Fadd _a _b, Fadd a_ b_)

/-- `_sub`. -/
def _sub (_a a_ _b b_ : F) : F × F :=
  if _isempty _a a_ || _isempty _b b_ then (nan, nan)
  else if _is_extended _a a_ && _is_extended _b b_ then (ninf, pinf)
  else (Fsub _a b_, Fsub a_ _b)

/-- `_mul`. -/
def _mul (_a a_ _b b_ : F) : F × F :=
  if _isempty _a a_ || _isempty _b b_ then (nan, nan)
  else if _is_extended _a a_ && _is_extended _b b_ then (ninf, pinf)
  else
    (min4 (Fmul _a _b) (Fmul _a b_) (Fmul a_ _b) (Fmul a_ b_),
     max4 (Fmul _a _b) (Fmul _a b_) (Fmul a_ _b) (Fmul a_ b_))

/-- `_div_simple`. -/
def _div_simple (_a a_ _b b_ : F) : F × F :=
  if _isempty _a a_ || _isempty _b b_ then (nan, nan)
  else
    (min4 (Fdiv _a _b) (Fdiv _a b_) (Fdiv a_ _b) (Fdiv a_ b_),
     max4 (Fdiv _a _b) (Fdiv _a b_) (Fdiv a_ _b) (Fdiv a_ b_))

/-- `_div`: extended division.  The source mutates `(_x, x_)` through a
sequence of `if` blocks; each block is modelled by one shadowing `let`. -/
def _div (_a a_ _b b_ : F) : F × F :=
  if _isempty _a a_ || _isempty _b b_ then (nan, nan)
  else
    let p : F × F := (ninf, pinf)
    let p := if !(_has_zero _b b_) then _div_simple _a a_ _b b_ else p
    let p := if Flt a_ (fin 0) && Flt _b b_ && Fbeq b_ (fin 0)
      then (Fdiv a_ _b, p.2) else p
    let p := if Flt a_ (fin 0) && Flt _b (fin 0) && Flt (fin 0) b_
      then (Fdiv a_ _b, Fdiv a_ b_) else p
    let p := if Flt a_ (fin 0) && Fbeq (fin 0) _b && Flt _b b_
      then (p.1, Fdiv a_ b_) else p
    let p := if Flt (fin 0) _a && Flt _b b_ && Fbeq b_ (fin 0)
      then (p.1, Fdiv _a _b) else p
    let p := if Flt (fin 0) _a && Flt _b (fin 0) && Flt (fin 0) b_
      then (Fdiv _a b_, Fdiv _a _b) else p
    let p := if Flt (fin 0) _a && Fbeq (fin 0) _b && Flt _b b_
      then (Fdiv _a b_, p.2) else p
    let p := if !(_has_zero _a a_) && Fbeq _b (fin 0) && Fbeq b_ (fin 0)
      then (nan, nan) else p
    p

/-- `_mig`: mignitude. -/
def _mig (_a a_ : F) : F :=
  if _has_zero _a a_ then fin 0
  else pymin (Fabs _a) (Fabs a_)

/-- `_mag`: magnitude. -/
def _mag (_a a_ : F) : F := pymax (Fabs _a) (Fabs a_)

/-- `_sqrt`, parametrised over the round-down and round-up evaluations of
the scalar `np.sqrt` kernel. -/
def _sqrt (sqrtD sqrtU : F → F) (_a a_ : F) : Except PyErr (F × F) :=
  if Fle (fin 0) _a then .ok (sqrtD _a, sqrtU a_)
  else .error (.notImplementedError "extended sqrt")

/-- `_log`, parametrised over the round-down and round-up evaluations of
the scalar `np.log` kernel. -/
def _log (logD logU : F → F) (_a a_ : F) : Except PyErr (F × F) :=
  if Flt (fin 0) _a then .ok (logD _a, logU a_)
  else .error (.notImplementedError "extended log")

/-- `_pow`: interval integer power.  The source initialises the result to
`(1, 1)` and overwrites it in whichever `if` block matches. -/
def _pow (_a a_ : F) (n : ℤ) : F × F :=
  let p : F × F := (fin 1, fin 1)
  let p := if 1 < n ∧ n % 2 = 1
    then (FpowN _a n.toNat, FpowN a_ n.toNat) else p
  let p := if 1 < n ∧ n % 2 = 0
    then (FpowN (_mig _a a_) n.toNat, FpowN (_mag _a a_) n.toNat) else p
  let p := if n < 0 ∧ _has_zero _a a_ = false
    then (FpowN (Fdiv (fin 1) a_) (-n).toNat, FpowN (Fdiv (fin 1) _a) (-n).toNat)
    else p
  p

/-- `_sin`, parametrised over the round-down and round-up evaluations of
`np.sin`, the round-to-nearest evaluation of `np.cos`, and the lower π
bound of the start-up enclosure `_pi_`. -/
def _sin (sinD sinU cosN : F → F) (_pi : F) (_a a_ : F) : F × F :=
  let d := Fsub a_ _a
  if !(Fbeq d d) || Fle (Fmul (fin 2) _pi) d then (fin (-1), fin 1)
  else
    let _x := pymin (sinD _a) (sinD a_)
    let x_ := pymax (sinU _a) (sinU a_)
    if Fle (cosN _a) (fin 0) && Fle (fin 0) (cosN a_) then (fin (-1), x_)
    else if Fle (fin 0) (cosN _a) && Fle (cosN a_) (fin 0) then (_x, fin 1)
    else (_x, x_)

/-- `_cos`: `sin(x + π/2)`, using both bounds of the start-up π
enclosure. -/
def _cos (sinD sinU cosN : F → F) (_pi pi_ : F) (_a a_ : F) : F × F :=
  let b := _div _pi pi_ (fin 2) (fin 2)
  let s := _add _a a_ b.1 b.2
  _sin sinD sinU cosN _pi s.1 s.2

/-! ## The Interval class facade and the generic dispatch layer -/

/-- The state an `Interval` object holds after `__init__`. -/
structure IntervalV where
  lo : F
  hi : F
  isempty : Bool
  is_extended : Bool
  is_thin : Bool
deriving DecidableEq, Repr

/-- `Interval.__init__(_x, x_)`: the status flags `isempty` and
`is_extended` are computed from the raw arguments, then a NaN upper bound
is replaced by the lower bound (the thin / single-argument path), then
the `assert _is_valid` contract check runs on the replaced pair. -/
def interval_init (_x x_ : F) : Except PyErr IntervalV :=
  let empt := _isempty _x x_
  let ext := Fgt _x x_
  let x2 := if isnan x_ then _x else x_
  if _is_valid _x x2 then
    .ok ⟨_x, x2, empt, ext, Fbeq _x x2⟩
  else .error (.assertionError "Invalid Interval")

/-- The attribute names an `Interval` instance exposes: the fields set in
`__init__` and the methods/properties of `class Interval` in
src/IntLib.py. -/
def intervalAttrs : List String :=
  ["isempty", "is_extended", "is_thin", "_x", "x_",
   "has_zero", "mig", "mag", "rad", "mid",
   "dist", "is_inclusion",
   "exp", "sqrt", "log", "atan", "sin", "cos",
   "__init__", "__repr__", "__iter__", "__eq__", "__neq__",
   "__contains__", "__and__", "__or__", "__neg__",
   "__add__", "__radd__", "__sub__", "__rsub__",
   "__mul__", "__rmul__", "__truediv__", "__rtruediv__",
   "__le__", "__lt__", "__ge__", "__gt__", "__abs__", "__pow__"]

/-- `Interval.__pow__(self, n)`: `Interval(*_pow(_s, s_, n))` — the bound
pair it constructs the result interval from. -/
def interval_dunder_pow (x : IntervalV) (n : ℤ) : F × F := _pow x.lo x.hi n

/-- `GenFuncs.pwr(x, n)` applied to an `Interval` argument: an `Interval`
is not an `int`, `float` or `ndarray`, so the dispatch layer evaluates
`x.pow(n)`, which first looks up the attribute `pow` on the object and
raises `AttributeError` when the class does not define it. -/
def pwr_on_interval (x : IntervalV) (n : ℤ) : Except PyErr (F × F) :=
  if "pow" ∈ intervalAttrs then .ok (_pow x.lo x.hi n)
  else .error (.attributeError "Interval object has no attribute pow")

/-! ## Helper lemmas on the IEEE comparison model -/

lemma Flt_not_nan {x y : F} (h : Flt x y = true) :
    isnan x = false ∧ isnan y = false := by
  cases x <;> cases y <;> simp_all [Flt, isnan]

lemma Flt_asymm {x y : F} (h : Flt x y = true) : Flt y x = false := by
  cases x <;> cases y <;> simp_all [Flt]
  exact le_of_lt h

lemma Flt_trans {x y z : F} (h1 : Flt x y = true) (h2 : Flt y z = true) :
    Flt x z = true := by
  cases x <;> cases y <;> cases z <;> simp_all [Flt]
  exact lt_trans h1 h2

lemma Flt_Fle {x y : F} (h : Flt x y = true) : Fle x y = true := by
  cases x <;> cases y <;> simp_all [Flt, Fle]
  exact le_of_lt h

lemma Flt_fin0_irrefl : Flt (fin 0) (fin 0) = false := by simp [Flt]

lemma Fbeq_fin_right {x : F} {q : ℚ} (h : Fbeq x (fin q) = true) : x = fin q := by
  cases x <;> simp_all [Fbeq]

lemma Fbeq_fin_left {x : F} {q : ℚ} (h : Fbeq (fin q) x = true) : x = fin q := by
  cases x <;> simp_all [Fbeq]

lemma Fbeq_right_of_lt {x : F} {q : ℚ} (h : Flt x (fin q) = true) :
    Fbeq x (fin q) = false := by
  cases x <;> simp_all [Flt, Fbeq]
  exact ne_of_lt h

lemma Fbeq_left_of_lt {x : F} {q : ℚ} (h : Flt (fin q) x = true) :
    Fbeq (fin q) x = false := by
  cases x <;> simp_all [Flt, Fbeq]
  exact ne_of_lt h

lemma isempty_false_of_ext {x y : F} (h : _is_extended x y = true) :
    _isempty x y = false := by
  have h' : Flt y x = true := h
  have := Flt_not_nan h'
  simp [_isempty, this.1, this.2]

/-! ## Claim theorems -/

/-- C3: Empty absorption — for every binary operator (`_add`, `_sub`,
`_mul`, `_div_simple`, `_div`) and every interval `[_b, b_]`, combining
the empty interval `(nan, nan)` with it, in either operand position,
yields the empty interval `(nan, nan)`. -/
theorem empty_absorption (_b b_ : F) :
    _add nan nan _b b_ = (nan, nan) ∧ _add _b b_ nan nan = (nan, nan) ∧
    _sub nan nan _b b_ = (nan, nan) ∧ _sub _b b_ nan nan = (nan, nan) ∧
    _mul nan nan _b b_ = (nan, nan) ∧ _mul _b b_ nan nan = (nan, nan) ∧
    _div_simple nan nan _b b_ = (nan, nan) ∧
    _div_simple _b b_ nan nan = (nan, nan) ∧
    _div nan nan _b b_ = (nan, nan) ∧ _div _b b_ nan nan = (nan, nan) := by
  refine ⟨rfl, ?_, rfl, ?_, rfl, ?_, rfl, ?_, rfl, ?_⟩ <;>
    simp [_add, _sub, _mul, _div_simple, _div, _isempty, isnan]

/-- C9: For every interval, `_pow` with exponent `n = 1` matches none of
the three case branches and returns the default `(1, 1)`; likewise for
any negative `n` when the interval contains zero. -/
theorem pow_default_one (_a a_ : F) (n : ℤ) :
    _pow _a a_ 1 = (fin 1, fin 1) ∧
    (n < 0 → _has_zero _a a_ = true → _pow _a a_ n = (fin 1, fin 1)) := by
  constructor
  · have h1 : ¬ ((1 : ℤ) < 1) := by omega
    simp [_pow, h1]
  · intro hn hz
    have h1 : ¬ ((1 : ℤ) < n) := by omega
    simp [_pow, h1, hz]

/-- Witness for C9: the negative-exponent/zero-containing hypotheses hold
at `[-1, 1]`, `n = -2`, and `_pow` indeed returns `(1, 1)` there. -/
theorem pow_default_one_witness :
    _pow (fin (-1)) (fin 1) (-2) = (fin 1, fin 1) :=
  (pow_default_one (fin (-1)) (fin 1) (-2)).2 (by omega)
    (by norm_num [_has_zero, _isempty, _is_extended, isnan, Fgt, Flt, Fle])

/-- C10: applying `_sin` to the empty interval `(nan, nan)` returns the
maximal range `(-1, 1)` (the NaN width triggers the early maximal-range
return), and likewise `_cos` (defined via `_sin`); in particular the
empty interval is not absorbing under `sin`/`cos`.  Quantified over every
choice of scalar sine/cosine kernel and of the π enclosure. -/
theorem sin_cos_empty_maximal (sinD sinU cosN : F → F) (_pi pi_ : F) :
    _sin sinD sinU cosN _pi nan nan = (fin (-1), fin 1) ∧
    _cos sinD sinU cosN _pi pi_ nan nan = (fin (-1), fin 1) ∧
    ((fin (-1), fin 1) : F × F) ≠ (nan, nan) := by
  refine ⟨rfl, rfl, by simp⟩

/-- C8: dividing any non-empty interval that does not contain zero by the
degenerate zero singleton `[0, 0]` yields the canonical empty interval
`(nan, nan)` as a normal result. -/
theorem div_by_zero_singleton_empty (_a a_ : F)
    (h1 : _isempty _a a_ = false) (h2 : _has_zero _a a_ = false) :
    _div _a a_ (fin 0) (fin 0) = (nan, nan) := by
  have hz : _has_zero (fin 0) (fin 0) = true := by
    norm_num [_has_zero, _isempty, _is_extended, isnan, Fgt, Flt, Fle]
  have he : _isempty (fin 0) (fin 0) = false := by norm_num [_isempty, isnan]
  have hlt : Flt (fin 0) (fin 0) = false := by norm_num [Flt]
  have hbe : Fbeq (fin 0) (fin 0) = true := by norm_num [Fbeq]
  simp [_div, h1, h2, hz, he, hlt, hbe]

/-- Witness for C8: `[1, 2]` is non-empty and does not contain zero, and
`[1, 2] / [0, 0] = ∅`. -/
theorem div_by_zero_singleton_empty_witness :
    _div (fin 1) (fin 2) (fin 0) (fin 0) = (nan, nan) :=
  div_by_zero_singleton_empty (fin 1) (fin 2)
    (by norm_num [_isempty, isnan])
    (by norm_num [_has_zero, _isempty, _is_extended, isnan, Fgt, Flt, Fle])

/-- C6: `_sqrt` fails with the explicit `NotImplementedError` exactly
when its lower bound does not satisfy `0 <= lower` (under IEEE
comparison, so also when the lower bound is NaN), and `_log` fails
exactly when its lower bound does not satisfy `0 < lower`; when the
domain condition holds each returns the scalar kernel applied to the two
bounds under the matching rounding directions.  Quantified over every
round-down/round-up kernel pair. -/
theorem sqrt_log_domain (sD sU lD lU : F → F) (_a a_ : F) :
    (_sqrt sD sU _a a_ = .error (.notImplementedError "extended sqrt") ↔
      Fle (fin 0) _a = false) ∧
    (Fle (fin 0) _a = true → _sqrt sD sU _a a_ = .ok (sD _a, sU a_)) ∧
    (_log lD lU _a a_ = .error (.notImplementedError "extended log") ↔
      Flt (fin 0) _a = false) ∧
    (Flt (fin 0) _a = true → _log lD lU _a a_ = .ok (lD _a, lU a_)) := by
  refine ⟨?_, ?_, ?_, ?_⟩
  · cases h : Fle (fin 0) _a <;> simp [_sqrt, h]
  · intro h; simp [_sqrt, h]
  · cases h : Flt (fin 0) _a <;> simp [_log, h]
  · intro h; simp [_log, h]

/-- Witness for C6: at `[1, 4]` both domain conditions hold and both
functions return the kernel images of the bounds. -/
theorem sqrt_log_domain_witness :
    _sqrt id id (fin 1) (fin 4) = .ok (id (fin 1), id (fin 4)) ∧
    _log id id (fin 1) (fin 4) = .ok (id (fin 1), id (fin 4)) :=
  ⟨(sqrt_log_domain id id id id (fin 1) (fin 4)).2.1 (by norm_num [Fle]),
   (sqrt_log_domain id id id id (fin 1) (fin 4)).2.2.2 (by norm_num [Flt])⟩

/-- C4 (the code contradicts it): the generic dispatch function
`GenFuncs.pwr` applied to an `Interval` evaluates `x.pow(n)`, but
`class Interval` defines `__pow__` and never a method named `pow`, so
the call raises `AttributeError` for every interval and every exponent
instead of returning the interval power. -/
theorem pwr_interval_attribute_error (x : IntervalV) (n : ℤ) :
    pwr_on_interval x n =
      .error (.attributeError "Interval object has no attribute pow") ∧
    ("pow" ∈ intervalAttrs ↔ False) ∧
    "__pow__" ∈ intervalAttrs ∧
    interval_dunder_pow x 1 = (fin 1, fin 1) := by
  have hp : "pow" ∉ intervalAttrs := by decide
  refine ⟨?_, by simpa using hp, by decide, ?_⟩
  · simp [pwr_on_interval, hp]
  · have h1 : ¬ ((1 : ℤ) < 1) := by omega
    simp [interval_dunder_pow, _pow, h1]

/-- C5 counterexample: constructing an `Interval` from `(1, nan)` — a
pair in which exactly one bound is NaN — does not fail: the NaN upper
bound is replaced by the lower bound before the validity assert, and the
thin interval `[1, 1]` is returned. -/
theorem init_nan_upper_succeeds :
    interval_init (fin 1) nan = .ok ⟨fin 1, fin 1, false, false, true⟩ ∧
    isnan (fin 1) = false ∧ isnan (nan : F) = true := by
  refine ⟨?_, rfl, rfl⟩
  norm_num [interval_init, _isempty, _is_valid, isnan, Fgt, Flt, Fbeq]

/-- C5 (amended): `Interval.__init__(_x, x_)` fails with the
`AssertionError` contract violation exactly when the lower bound is NaN
and the upper bound is not; when the upper bound is NaN and the lower is
not, the upper bound is first replaced by the lower bound and the
constructor succeeds with the thin interval `[_x, _x]`; it also succeeds
when both or neither bound is NaN. -/
theorem init_fails_iff_nan_lower_only (_x x_ : F) :
    ((∃ e, interval_init _x x_ = .error e) ↔
      (isnan _x = true ∧ isnan x_ = false)) ∧
    (isnan x_ = true → isnan _x = false →
      interval_init _x x_ = .ok ⟨_x, _x, false, false, true⟩) := by
  constructor
  · cases _x <;> cases x_ <;>
      simp [interval_init, _isempty, _is_valid, isnan, Fgt, Flt, Fbeq]
  · intro hx hnx
    cases _x <;> cases x_ <;>
      simp_all [interval_init, _isempty, _is_valid, isnan, Fgt, Flt, Fbeq]

/-- Witness for C5 (amended): `(2, nan)` satisfies the NaN-upper
hypotheses and construction yields the thin interval `[2, 2]`. -/
theorem init_fails_iff_nan_lower_only_witness :
    interval_init (fin 2) nan = .ok ⟨fin 2, fin 2, false, false, true⟩ :=
  (init_fails_iff_nan_lower_only (fin 2) nan).2 rfl rfl

/-- C2 counterexample: for `_div` the claim fails — both operands
`[1, -1]` are extended with non-NaN bounds, yet the result is `(-1, 1)`,
not the full real line: `_div` has no both-extended early return, and
here the divisor does not contain zero, so `_div_simple` supplies the
result. -/
theorem both_extended_div_counterexample :
    _is_extended (fin 1) (fin (-1)) = true ∧
    isnan (fin 1) = false ∧ isnan (fin (-1)) = false ∧
    _div (fin 1) (fin (-1)) (fin 1) (fin (-1)) = (fin (-1), fin 1) ∧
    ((fin (-1), fin 1) : F × F) ≠ (ninf, pinf) := by
  refine ⟨by norm_num [_is_extended, Fgt, Flt], rfl, rfl, ?_, by simp⟩
  norm_num [_div, _div_simple, _isempty, _has_zero, _is_extended, isnan,
    Fgt, Flt, Fle, Fbeq, min4, max4, pymin, pymax, Fdiv]

/-- C2 (amended): if both operands are extended (lower > upper, hence
neither bound NaN), then `_add`, `_sub` and `_mul` return the full real
line `(-inf, +inf)`; `_div` returns the full real line provided the
(extended) divisor additionally contains zero — otherwise `_div`
delegates to `_div_simple` instead. -/
theorem both_extended_full_line (_a a_ _b b_ : F)
    (ha : _is_extended _a a_ = true) (hb : _is_extended _b b_ = true) :
    _add _a a_ _b b_ = (ninf, pinf) ∧
    _sub _a a_ _b b_ = (ninf, pinf) ∧
    _mul _a a_ _b b_ = (ninf, pinf) ∧
    (_has_zero _b b_ = true → _div _a a_ _b b_ = (ninf, pinf)) := by
  have hea := isempty_false_of_ext ha
  have heb := isempty_false_of_ext hb
  have hb' : Flt b_ _b = true := hb
  have hbne : Flt _b b_ = false := Flt_asymm hb'
  refine ⟨?_, ?_, ?_, ?_⟩
  · simp [_add, hea, heb, ha, hb]
  · simp [_sub, hea, heb, ha, hb]
  · simp [_mul, hea, heb, ha, hb]
  · intro hz
    have hB : Flt _b (fin 0) = false ∨ Flt (fin 0) b_ = false := by
      by_cases h1 : Flt _b (fin 0) = true
      · by_cases h2 : Flt (fin 0) b_ = true
        · exact absurd (Flt_trans (Flt_trans h2 hb') h1) (by simp [Flt])
        · right; simpa using h2
      · left; simpa using h1
    have hb7 : Fbeq _b (fin 0) = false ∨ Fbeq b_ (fin 0) = false := by
      by_cases h1 : Fbeq _b (fin 0) = true
      · have := Fbeq_fin_right h1
        subst this
        by_cases h2 : Fbeq b_ (fin 0) = true
        · have := Fbeq_fin_right h2
          subst this
          exact absurd hb' (by simp [Flt])
        · right; simpa using h2
      · left; simpa using h1
    rcases hB with h | h <;> rcases hb7 with h' | h' <;>
      simp [_div, hea, heb, hz, hbne, h, h']

/-- Witness for C2 (amended): both `[1, 0]` and `[0, -1]` are extended,
the divisor `[0, -1]` contains zero, and all four operators return the
full real line. -/
theorem both_extended_full_line_witness :
    _add (fin 1) (fin 0) (fin 0) (fin (-1)) = (ninf, pinf) ∧
    _sub (fin 1) (fin 0) (fin 0) (fin (-1)) = (ninf, pinf) ∧
    _mul (fin 1) (fin 0) (fin 0) (fin (-1)) = (ninf, pinf) ∧
    _div (fin 1) (fin 0) (fin 0) (fin (-1)) = (ninf, pinf) := by
  have h := both_extended_full_line (fin 1) (fin 0) (fin 0) (fin (-1))
    (by norm_num [_is_extended, Fgt, Flt])
    (by norm_num [_is_extended, Fgt, Flt])
  exact ⟨h.1, h.2.1, h.2.2.1, h.2.2.2 (by
    norm_num [_has_zero, _isempty, _is_extended, isnan, Fgt, Flt, Fle])⟩

lemma Fbeq_right_of_gt {x : F} {q : ℚ} (h : Flt (fin q) x = true) :
    Fbeq x (fin q) = false := by
  cases x <;> simp_all [Flt, Fbeq]
  exact ne_of_gt h

lemma Fbeq_left_of_gt {x : F} {q : ℚ} (h : Flt x (fin q) = true) :
    Fbeq (fin q) x = false := by
  cases x <;> simp_all [Flt, Fbeq]
  exact ne_of_gt h

/-- C7 counterexample: the dividend `[2, -1]` is non-empty with upper
bound `< 0`, and the divisor `[-1, 1]` strictly straddles zero, but the
dividend is extended (`2 > -1`), so the later `0 < _a` branch of `_div`
also fires and overwrites the result: `_div` returns `(2, -2)`, not the
claimed `(round-down(-1 / -1), round-up(-1 / 1)) = (1, -1)`. -/
theorem div_neg_dividend_counterexample :
    _isempty (fin 2) (fin (-1)) = false ∧
    Flt (fin (-1)) (fin 0) = true ∧
    Flt (fin (-1)) (fin 0) = true ∧ Flt (fin 0) (fin 1) = true ∧
    _div (fin 2) (fin (-1)) (fin (-1)) (fin 1) = (fin 2, fin (-2)) ∧
    Fdiv (fin (-1)) (fin (-1)) = fin 1 ∧ Fdiv (fin (-1)) (fin 1) = fin (-1) ∧
    ((fin 2, fin (-2)) : F × F) ≠ (fin 1, fin (-1)) := by
  refine ⟨rfl, by norm_num [Flt], by norm_num [Flt], by norm_num [Flt],
    ?_, by norm_num [Fdiv], by norm_num [Fdiv], by norm_num⟩
  norm_num [_div, _div_simple, _isempty, _has_zero, _is_extended, isnan,
    Fgt, Flt, Fle, Fbeq, min4, max4, pymin, pymax, Fdiv]

/-- C7 (amended): for every non-empty and non-extended dividend whose
upper bound is `< 0`, and every divisor strictly straddling zero
(`divisor.lower < 0 < divisor.upper`), `_div` returns the pair
`(round-down(dividend.upper / divisor.lower),
round-up(dividend.upper / divisor.upper))`; when the three bounds
involved are finite this pair is an extended interval (strictly positive
lower bound, strictly negative upper bound). -/
theorem div_neg_dividend_straddle (_a a_ _b b_ : F)
    (hne : _isempty _a a_ = false)
    (hnx : _is_extended _a a_ = false)
    (hu : Flt a_ (fin 0) = true)
    (hl : Flt _b (fin 0) = true) (hr : Flt (fin 0) b_ = true) :
    _div _a a_ _b b_ = (Fdiv a_ _b, Fdiv a_ b_) ∧
    (∀ q p r : ℚ, a_ = fin q → _b = fin p → b_ = fin r →
      _is_extended (Fdiv a_ _b) (Fdiv a_ b_) = true) := by
  have hnanb := Flt_not_nan hl
  have hnanr := Flt_not_nan hr
  have heb : _isempty _b b_ = false := by simp [_isempty, hnanb.1]
  have hbx : _is_extended _b b_ = false := by
    by_cases h : Flt b_ _b = true
    · exact absurd (Flt_trans (Flt_trans hr h) hl) (by simp [Flt])
    · simpa [_is_extended, Fgt] using h
  have hzb : _has_zero _b b_ = true := by
    simp [_has_zero, heb, hbx, _is_extended, Fgt, Flt_Fle hl, Flt_Fle hr]
  have hbe : Fbeq b_ (fin 0) = false := Fbeq_right_of_gt hr
  have hb0 : Fbeq (fin 0) _b = false := Fbeq_left_of_gt hl
  have ha0 : Flt (fin 0) _a = false := by
    by_cases h : Flt (fin 0) _a = true
    · have h2 := Flt_trans hu h
      have h3 : Flt a_ _a = false := hnx
      simp_all
    · simpa using h
  constructor
  · simp [_div, hne, heb, hzb, hbe, hb0, ha0, hu, hl, hr]
  · intro q p r hq hp hr'
    subst hq; subst hp; subst hr'
    have hq0 : q < 0 := by simpa [Flt] using hu
    have hp0 : p < 0 := by simpa [Flt] using hl
    have hr0 : 0 < r := by simpa [Flt] using hr
    have d1 : q / r < 0 := div_neg_of_neg_of_pos hq0 hr0
    have d2 : 0 < q / p := div_pos_of_neg_of_neg hq0 hp0
    simp [_is_extended, Fgt, Flt, Fdiv, ne_of_lt hp0, ne_of_gt hr0]
    linarith

/-- Witness for C7 (amended): at dividend `[-2, -1]` and divisor
`[-1, 1]`, all hypotheses hold and `_div` returns
`(-1 / -1, -1 / 1)`, an extended interval. -/
theorem div_neg_dividend_straddle_witness :
    _div (fin (-2)) (fin (-1)) (fin (-1)) (fin 1) =
      (Fdiv (fin (-1)) (fin (-1)), Fdiv (fin (-1)) (fin 1)) ∧
    _is_extended (Fdiv (fin (-1)) (fin (-1))) (Fdiv (fin (-1)) (fin 1)) = true := by
  have h := div_neg_dividend_straddle (fin (-2)) (fin (-1)) (fin (-1)) (fin 1)
    (by norm_num [_isempty, isnan])
    (by norm_num [_is_extended, Fgt, Flt])
    (by norm_num [Flt]) (by norm_num [Flt]) (by norm_num [Flt])
  exact ⟨h.1, h.2 (-1) (-1) 1 rfl rfl rfl⟩

/-! ## Inclusion isotonicity (C1) -/

/-- An interval that is either empty or has finite bounds in order
(non-extended).  This is the class of operands for which inclusion
isotonicity of `_add`/`_sub`/`_mul` holds; extended operands refute it
(see the counterexample). -/
def goodI (_x x_ : F) : Prop :=
  (_x = nan ∧ x_ = nan) ∨ ∃ p q : ℚ, _x = fin p ∧ x_ = fin q ∧ p ≤ q

/-- One-step unfolding of the fuelled `_contains` recursion. -/
lemma containsF_succ (k : ℕ) (_s s_ _o o_ : F) :
    containsF (k + 1) _s s_ _o o_ =
      (if _isempty _o o_ then true
      else if _isempty _s s_ then false
      else if _is_extended _s s_ && _is_extended _o o_ then
        containsF k _s s_ ninf o_ && containsF k _s s_ _o pinf
      else if _is_extended _s s_ then
        containsF k ninf s_ _o o_ || containsF k _s pinf _o o_
      else if _is_extended _o o_ then
        containsF k _s s_ ninf o_ || containsF k _s s_ _o pinf
      else Fle _s _o && Fle o_ s_) := rfl

/-- `∅ ⊆ s` for every interval `s`. -/
lemma contains_empty_right (s1 s2 : F) : _contains s1 s2 nan nan = true := by
  simp [_contains, containsF_succ, _isempty, isnan]

/-- On non-extended finite intervals, `_contains` is the usual bound
comparison. -/
lemma contains_fin_iff {p q r s : ℚ} (hpq : p ≤ q) (hrs : r ≤ s) :
    _contains (fin p) (fin q) (fin r) (fin s) = true ↔ p ≤ r ∧ s ≤ q := by
  have h1 : Flt (fin q) (fin p) = false := by
    simpa [Flt] using not_lt.2 hpq
  have h2 : Flt (fin s) (fin r) = false := by
    simpa [Flt] using not_lt.2 hrs
  simp [_contains, containsF_succ, _isempty, isnan, _is_extended, Fgt,
    h1, h2, Fle]

lemma pymin_fin (p q : ℚ) : pymin (fin p) (fin q) = fin (min p q) := by
  rcases lt_or_le q p with h | h
  · simp [pymin, Flt, h, min_eq_right h.le]
  · simp [pymin, Flt, not_lt.2 h, min_eq_left h]

lemma pymax_fin (p q : ℚ) : pymax (fin p) (fin q) = fin (max p q) := by
  rcases lt_or_le p q with h | h
  · simp [pymax, Fgt, Flt, h, max_eq_right h.le]
  · simp [pymax, Fgt, Flt, not_lt.2 h, max_eq_left h]

lemma add_fin {p q r s : ℚ} (hpq : p ≤ q) :
    _add (fin p) (fin q) (fin r) (fin s) = (fin (p + r), fin (q + s)) := by
  have h1 : Flt (fin q) (fin p) = false := by
    simpa [Flt] using not_lt.2 hpq
  simp [_add, _isempty, isnan, _is_extended, Fgt, h1, Fadd]

lemma sub_fin {p q r s : ℚ} (hpq : p ≤ q) :
    _sub (fin p) (fin q) (fin r) (fin s) = (fin (p - s), fin (q - r)) := by
  have h1 : Flt (fin q) (fin p) = false := by
    simpa [Flt] using not_lt.2 hpq
  simp [_sub, _isempty, isnan, _is_extended, Fgt, h1, Fsub, Fneg, Fadd,
    sub_eq_add_neg]

lemma mul_fin {p q r s : ℚ} (hpq : p ≤ q) :
    _mul (fin p) (fin q) (fin r) (fin s) =
      (fin (min (min (min (p*r) (p*s)) (q*r)) (q*s)),
       fin (max (max (max (p*r) (p*s)) (q*r)) (q*s))) := by
  have h1 : Flt (fin q) (fin p) = false := by
    simpa [Flt] using not_lt.2 hpq
  simp [_mul, _isempty, isnan, _is_extended, Fgt, h1, Fmul,
    min4, max4, pymin_fin, pymax_fin]

lemma corner_lb {c d x : ℚ} (z : ℚ) (h1 : c ≤ x) (h2 : x ≤ d) :
    min (c*z) (d*z) ≤ x*z := by
  rcases le_total 0 z with hz | hz
  · exact le_trans (min_le_left _ _) (mul_le_mul_of_nonneg_right h1 hz)
  · exact le_trans (min_le_right _ _) (mul_le_mul_of_nonpos_right h2 hz)

lemma corner_ub {c d x : ℚ} (z : ℚ) (h1 : c ≤ x) (h2 : x ≤ d) :
    x*z ≤ max (c*z) (d*z) := by
  rcases le_total 0 z with hz | hz
  · exact le_trans (mul_le_mul_of_nonneg_right h2 hz) (le_max_right _ _)
  · exact le_trans (mul_le_mul_of_nonpos_right h1 hz) (le_max_left _ _)

lemma q_mul_lo {a b c d e f : ℚ} (hca : c ≤ a) (hab : a ≤ b) (hbd : b ≤ d) :
    min (min (min (c*e) (c*f)) (d*e)) (d*f) ≤
      min (min (min (a*e) (a*f)) (b*e)) (b*f) := by
  have l1 : min (min (min (c*e) (c*f)) (d*e)) (d*f) ≤ c*e :=
    le_trans (min_le_left _ _) (le_trans (min_le_left _ _) (min_le_left _ _))
  have l2 : min (min (min (c*e) (c*f)) (d*e)) (d*f) ≤ c*f :=
    le_trans (min_le_left _ _) (le_trans (min_le_left _ _) (min_le_right _ _))
  have l3 : min (min (min (c*e) (c*f)) (d*e)) (d*f) ≤ d*e :=
    le_trans (min_le_left _ _) (min_le_right _ _)
  have l4 : min (min (min (c*e) (c*f)) (d*e)) (d*f) ≤ d*f :=
    min_le_right _ _
  have had : a ≤ d := le_trans hab hbd
  have hcb : c ≤ b := le_trans hca hab
  refine le_min (le_min (le_min ?_ ?_) ?_) ?_
  · exact le_trans (le_min l1 l3) (corner_lb e hca had)
  · exact le_trans (le_min l2 l4) (corner_lb f hca had)
  · exact le_trans (le_min l1 l3) (corner_lb e hcb hbd)
  · exact le_trans (le_min l2 l4) (corner_lb f hcb hbd)

lemma q_mul_hi {a b c d e f : ℚ} (hca : c ≤ a) (hab : a ≤ b) (hbd : b ≤ d) :
    max (max (max (a*e) (a*f)) (b*e)) (b*f) ≤
      max (max (max (c*e) (c*f)) (d*e)) (d*f) := by
  have r1 : c*e ≤ max (max (max (c*e) (c*f)) (d*e)) (d*f) :=
    le_trans (le_max_left _ _) (le_trans (le_max_left _ _) (le_max_left _ _))
  have r2 : c*f ≤ max (max (max (c*e) (c*f)) (d*e)) (d*f) :=
    le_trans (le_max_right _ _) (le_trans (le_max_left _ _) (le_max_left _ _))
  have r3 : d*e ≤ max (max (max (c*e) (c*f)) (d*e)) (d*f) :=
    le_trans (le_max_right _ _) (le_max_left _ _)
  have r4 : d*f ≤ max (max (max (c*e) (c*f)) (d*e)) (d*f) :=
    le_max_right _ _
  have had : a ≤ d := le_trans hab hbd
  have hcb : c ≤ b := le_trans hca hab
  refine max_le (max_le (max_le ?_ ?_) ?_) ?_
  · exact le_trans (corner_ub e hca had) (max_le r1 r3)
  · exact le_trans (corner_ub f hca had) (max_le r2 r4)
  · exact le_trans (corner_ub e hcb hbd) (max_le r1 r3)
  · exact le_trans (corner_ub f hcb hbd) (max_le r2 r4)

/-- C1 counterexample: `X = [5, 6]` is contained in the extended
`Y = [3, 0]` (it lies in the arm `[3, +∞)`), and `Z = [-1, 1]`, yet
`X * Z = [-6, 6]` is not contained in `Y * Z = [-3, 3]`: the extended
`Y` falls through to the ordinary corner-product formula, which does not
enclose the arms of the extended operand. -/
theorem isotonicity_counterexample :
    _contains (fin 3) (fin 0) (fin 5) (fin 6) = true ∧
    _contains (_mul (fin 3) (fin 0) (fin (-1)) (fin 1)).1
      (_mul (fin 3) (fin 0) (fin (-1)) (fin 1)).2
      (_mul (fin 5) (fin 6) (fin (-1)) (fin 1)).1
      (_mul (fin 5) (fin 6) (fin (-1)) (fin 1)).2 = false := by
  refine ⟨by decide, ?_⟩
  have h1 : _mul (fin 3) (fin 0) (fin (-1)) (fin 1) = (fin (-3), fin 3) := by
    norm_num [_mul, _isempty, _is_extended, isnan, Fgt, Flt, min4, max4,
      pymin, pymax, Fmul]
  have h2 : _mul (fin 5) (fin 6) (fin (-1)) (fin 1) = (fin (-6), fin 6) := by
    norm_num [_mul, _isempty, _is_extended, isnan, Fgt, Flt, min4, max4,
      pymin, pymax, Fmul]
  rw [h1, h2]
  decide

/-- C1 (amended): inclusion isotonicity holds for `_add`, `_sub` and
`_mul` over operands that are each either empty or non-extended with
finite bounds: if `X ⊆ Y` (per `_contains`) then `X ∘ Z ⊆ Y ∘ Z` for
each of the three operators.  (Extended operands refute the unrestricted
claim, and infinite bounds can produce NaN corner products `0 × ∞`.) -/
theorem isotonicity_add_sub_mul (_x x_ _y y_ _z z_ : F)
    (hX : goodI _x x_) (hY : goodI _y y_) (hZ : goodI _z z_)
    (hsub : _contains _y y_ _x x_ = true) :
    _contains (_add _y y_ _z z_).1 (_add _y y_ _z z_).2
      (_add _x x_ _z z_).1 (_add _x x_ _z z_).2 = true ∧
    _contains (_sub _y y_ _z z_).1 (_sub _y y_ _z z_).2
      (_sub _x x_ _z z_).1 (_sub _x x_ _z z_).2 = true ∧
    _contains (_mul _y y_ _z z_).1 (_mul _y y_ _z z_).2
      (_mul _x x_ _z z_).1 (_mul _x x_ _z z_).2 = true := by
  rcases hX with ⟨hx1, hx2⟩ | ⟨a, b, hx1, hx2, hab⟩
  · subst hx1; subst hx2
    refine ⟨?_, ?_, ?_⟩
    · rw [show _add nan nan _z z_ = (nan, nan) from rfl]
      exact contains_empty_right _ _
    · rw [show _sub nan nan _z z_ = (nan, nan) from rfl]
      exact contains_empty_right _ _
    · rw [show _mul nan nan _z z_ = (nan, nan) from rfl]
      exact contains_empty_right _ _
  · rcases hY with ⟨hy1, hy2⟩ | ⟨c, d, hy1, hy2, hcd⟩
    · subst hy1; subst hy2; subst hx1; subst hx2
      exfalso
      simp [_contains, containsF_succ, _isempty, isnan] at hsub
    · rcases hZ with ⟨hz1, hz2⟩ | ⟨e, f, hz1, hz2, hef⟩
      · subst hx1; subst hx2; subst hy1; subst hy2; subst hz1; subst hz2
        have e1 : _add (fin c) (fin d) nan nan = (nan, nan) := by
          simp [_add, _isempty, isnan]
        have e2 : _sub (fin c) (fin d) nan nan = (nan, nan) := by
          simp [_sub, _isempty, isnan]
        have e3 : _mul (fin c) (fin d) nan nan = (nan, nan) := by
          simp [_mul, _isempty, isnan]
        have f1 : _add (fin a) (fin b) nan nan = (nan, nan) := by
          simp [_add, _isempty, isnan]
        have f2 : _sub (fin a) (fin b) nan nan = (nan, nan) := by
          simp [_sub, _isempty, isnan]
        have f3 : _mul (fin a) (fin b) nan nan = (nan, nan) := by
          simp [_mul, _isempty, isnan]
        rw [e1, e2, e3, f1, f2, f3]
        exact ⟨contains_empty_right _ _, contains_empty_right _ _,
          contains_empty_right _ _⟩
      · subst hx1; subst hx2; subst hy1; subst hy2; subst hz1; subst hz2
        obtain ⟨hca, hbd⟩ := (contains_fin_iff hcd hab).1 hsub
        refine ⟨?_, ?_, ?_⟩
        · rw [add_fin hcd, add_fin hab]
          exact (contains_fin_iff (by linarith) (by linarith)).2
            ⟨by linarith, by linarith⟩
        · rw [sub_fin hcd, sub_fin hab]
          exact (contains_fin_iff (by linarith) (by linarith)).2
            ⟨by linarith, by linarith⟩
        · rw [mul_fin hcd, mul_fin hab]
          have hyo : min (min (min (c*e) (c*f)) (d*e)) (d*f) ≤
              max (max (max (c*e) (c*f)) (d*e)) (d*f) := by
            refine le_trans (le_trans ?_ (le_refl (c*e))) ?_
            · exact le_trans (min_le_left _ _)
                (le_trans (min_le_left _ _) (min_le_left _ _))
            · exact le_trans (le_max_left _ _)
                (le_trans (le_max_left _ _) (le_max_left _ _))
          have hxo : min (min (min (a*e) (a*f)) (b*e)) (b*f) ≤
              max (max (max (a*e) (a*f)) (b*e)) (b*f) := by
            refine le_trans (le_trans ?_ (le_refl (a*e))) ?_
            · exact le_trans (min_le_left _ _)
                (le_trans (min_le_left _ _) (min_le_left _ _))
            · exact le_trans (le_max_left _ _)
                (le_trans (le_max_left _ _) (le_max_left _ _))
          exact (contains_fin_iff hyo hxo).2
            ⟨q_mul_lo hca hab hbd, q_mul_hi hca hab hbd⟩

/-- Witness for C1 (amended): `X = [1, 1] ⊆ Y = [0, 2]`, `Z = [1, 2]`,
all finite and non-extended; the three containments hold. -/
theorem isotonicity_add_sub_mul_witness :
    _contains (_add (fin 0) (fin 2) (fin 1) (fin 2)).1
      (_add (fin 0) (fin 2) (fin 1) (fin 2)).2
      (_add (fin 1) (fin 1) (fin 1) (fin 2)).1
      (_add (fin 1) (fin 1) (fin 1) (fin 2)).2 = true ∧
    _contains (_sub (fin 0) (fin 2) (fin 1) (fin 2)).1
      (_sub (fin 0) (fin 2) (fin 1) (fin 2)).2
      (_sub (fin 1) (fin 1) (fin 1) (fin 2)).1
      (_sub (fin 1) (fin 1) (fin 1) (fin 2)).2 = true ∧
    _contains (_mul (fin 0) (fin 2) (fin 1) (fin 2)).1
      (_mul (fin 0) (fin 2) (fin 1) (fin 2)).2
      (_mul (fin 1) (fin 1) (fin 1) (fin 2)).1
      (_mul (fin 1) (fin 1) (fin 1) (fin 2)).2 = true :=
  isotonicity_add_sub_mul (fin 1) (fin 1) (fin 0) (fin 2) (fin 1) (fin 2)
    (Or.inr ⟨1, 1, rfl, rfl, le_refl 1⟩)
    (Or.inr ⟨0, 2, rfl, rfl, by norm_num⟩)
    (Or.inr ⟨1, 2, rfl, rfl, by norm_num⟩)
    (by decide)
